import Mathlib

/-!
Shallow embedding of `src/index.ts` (ClawFiAI/wallet-tracker), a wallet
activity tracker polling block-explorer APIs.

The network boundary (fetch + JSON decode + per-record field mapping) is
modelled by an oracle (`FetchOracle`) supplying, per wallet key, the
already-normalised responses the source builds inside its `try` blocks:
everything the source computes *after* those responses arrive (merging,
sorting, deduplication, zero-balance filtering, decimals defaulting,
diffing, callback dispatch, map bookkeeping) is embedded as executable
Lean functions with the source's names. JavaScript `Map` is modelled as
an insertion-ordered association list; `Array.prototype.sort` (stable
per the ECMAScript spec) is modelled by `List.mergeSort`, which is
stable; JavaScript string `===` is Lean `String` equality.
-/

set_option linter.unusedVariables false

namespace WalletTracker

/-- `TokenInfo` interface: static per-token metadata. -/
structure TokenInfo where
  address : String
  symbol : String
  name : Option String := none
  decimals : Int
deriving DecidableEq, Repr

/-- Transaction direction classification (`Transaction['type']`). -/
inductive TxType where
  | txIn
  | txOut
  | swap
  | approval
  | contract
deriving DecidableEq, Repr

/-- Transaction confirmation status (`Transaction['status']`). -/
inductive TxStatus where
  | pending
  | confirmed
  | failed
deriving DecidableEq, Repr

/-- `Transaction` interface. `timestamp` is a millisecond Unix time
(a JavaScript number holding an integer). The optional `valueUsd`
field is never produced by any code path, so it is omitted. -/
structure Transaction where
  hash : String
  fromAddr : String
  toAddr : String
  value : String
  token : Option TokenInfo := none
  timestamp : Int
  txType : TxType
  status : TxStatus
  gasUsed : Option String := none
  gasPrice : Option String := none
  blockNumber : Option Int := none
deriving DecidableEq, Repr

/-- `TokenBalance` interface. -/
structure TokenBalance where
  token : TokenInfo
  balance : String
deriving DecidableEq, Repr

/-- `WalletBalance` interface (`nativeUsd`/`totalUsd` never produced). -/
structure WalletBalance where
  native : String
  tokens : List TokenBalance
deriving DecidableEq, Repr

/-- `WalletConfig` interface: user-supplied identity of a tracked wallet. -/
structure WalletConfig where
  address : String
  chain : String
  label : Option String := none
deriving DecidableEq, Repr

/-- `WalletActivity` interface: last-known snapshot for one wallet. -/
structure WalletActivity where
  wallet : WalletConfig
  transactions : List Transaction
  balance : WalletBalance
  lastUpdated : Int
deriving DecidableEq, Repr

/-- JavaScript `Map` with string keys, modelled as an insertion-ordered
association list: `set` updates in place or appends, `delete` removes,
`values()` lists values in insertion order. -/
abbrev JSMap (β : Type) := List (String × β)

/-- `Map.prototype.get`. -/
def mapGet {β : Type} : JSMap β → String → Option β
  | [], _ => none
  | (k', v) :: rest, k => if k' = k then some v else mapGet rest k

/-- `Map.prototype.has`. -/
def mapHasKey {β : Type} (m : JSMap β) (k : String) : Bool :=
  m.any (fun p => p.1 == k)

/-- `Map.prototype.set`: overwrite in place if the key exists, else append. -/
def mapSet {β : Type} : JSMap β → String → β → JSMap β
  | [], k, v => [(k, v)]
  | (k', v') :: rest, k, v =>
    if k' = k then (k, v) :: rest else (k', v') :: mapSet rest k v

/-- `Map.prototype.delete`. -/
def mapDelete {β : Type} (m : JSMap β) (k : String) : JSMap β :=
  m.filter (fun p => p.1 != k)

/-- `Map.prototype.values()` as a list. -/
def mapValues {β : Type} (m : JSMap β) : List β :=
  m.map (·.2)

/-- The callbacks configured in `TrackerOptions` (modelled by whether each
is present; their effects are recorded as `CallbackEvent`s). -/
structure TrackerOptions where
  hasOnTransaction : Bool
  hasOnBalanceChange : Bool
deriving DecidableEq, Repr

/-- The mutable state of a `WalletTracker` instance: the wallet registry
`this.wallets` and the activity store `this.activities`. -/
structure TrackerState where
  wallets : JSMap WalletConfig
  activities : JSMap WalletActivity
deriving DecidableEq, Repr

/-- The map key `` `${chain}:${address}` `` used by both maps. -/
def mkKey (chain address : String) : String :=
  chain ++ ":" ++ address

/-- Both maps start empty (field initialisers of the class). -/
def initState : TrackerState :=
  { wallets := [], activities := [] }

/-- `addWallet(config)`: insert or overwrite the registry entry. -/
def addWallet (s : TrackerState) (config : WalletConfig) : TrackerState :=
  { s with wallets := mapSet s.wallets (mkKey config.chain config.address) config }

/-- `removeWallet(chain, address)`: delete the key from both maps. -/
def removeWallet (s : TrackerState) (chain address : String) : TrackerState :=
  { wallets := mapDelete s.wallets (mkKey chain address),
    activities := mapDelete s.activities (mkKey chain address) }

/-- `getWallets()`. -/
def getWallets (s : TrackerState) : List WalletConfig :=
  mapValues s.wallets

/-- `getActivity(chain, address)`; `none` models `undefined` ("not found"). -/
def getActivity (s : TrackerState) (chain address : String) : Option WalletActivity :=
  mapGet s.activities (mkKey chain address)

/-- Keys of the `EXPLORER_APIS` table. -/
def EXPLORER_CHAINS : List String :=
  ["ethereum", "bsc", "polygon", "arbitrum", "base"]

/-- A raw entry of the `action=tokenlist` explorer response: string-typed
fields as delivered by the API; `balance` is `none` when the field is
absent (`undefined`). -/
structure RawTokenEntry where
  contractAddress : String
  symbol : String
  name : Option String := none
  decimals : String
  balance : Option String
deriving DecidableEq, Repr

/-- The network boundary for one wallet: everything the explorer/RPC
calls can deliver. `nativeTxs`/`tokenTxs`/`solanaTxs` are the normalised
lists the source's `.map` produces from the `txlist`/`tokentx`/Solscan
responses (empty on error or non-`'1'` status, as in the source's catch
branches). `nativeOk`/`tokenListOk` model `status === '1'` of the two
balance calls. -/
structure FetchOracle where
  nativeTxs : List Transaction
  tokenTxs : List Transaction
  solanaTxs : List Transaction
  nativeOk : Bool
  nativeResult : String
  tokenListOk : Bool
  tokenListResult : List RawTokenEntry
  solanaBalance : WalletBalance
deriving Repr

/-- `fetchEvmTransactions`: no-op (empty list) for a chain absent from
`EXPLORER_APIS`, otherwise the normalised `txlist` response. -/
def fetchEvmTransactions (chain : String) (o : FetchOracle) : List Transaction :=
  if chain ∈ EXPLORER_CHAINS then o.nativeTxs else []

/-- `fetchEvmTokenTransfers`: no-op for an unknown chain, otherwise the
normalised `tokentx` response. -/
def fetchEvmTokenTransfers (chain : String) (o : FetchOracle) : List Transaction :=
  if chain ∈ EXPLORER_CHAINS then o.tokenTxs else []

/-- The sort comparator `(a, b) => b.timestamp - a.timestamp` as a
`mergeSort` order: `a` may stay before `b` iff `b.timestamp ≤ a.timestamp`. -/
def txSortLe (a b : Transaction) : Bool :=
  b.timestamp ≤ a.timestamp

/-- `allTxs.sort((a, b) => b.timestamp - a.timestamp)`: a stable
descending sort by timestamp (ECMAScript sort is stable). -/
def sortByTimestampDesc (l : List Transaction) : List Transaction :=
  l.mergeSort txSortLe

/-- The dedup-by-hash filter with its `seen` set (`Set<string>` modelled
as the list of hashes added so far). -/
def dedupByHash (seen : List String) : List Transaction → List Transaction
  | [] => []
  | t :: ts =>
    if t.hash ∈ seen then dedupByHash seen ts
    else t :: dedupByHash (t.hash :: seen) ts

/-- The EVM merge in `fetchTransactions`: concatenate, stable-sort
descending by timestamp, deduplicate by hash keeping first occurrences. -/
def mergeTxs (nativeTxs tokenTxs : List Transaction) : List Transaction :=
  dedupByHash [] (sortByTimestampDesc (nativeTxs ++ tokenTxs))

/-- `fetchTransactions(wallet)`: Solana branch, else EVM merge. -/
def fetchTransactions (chain : String) (o : FetchOracle) : List Transaction :=
  if chain = "solana" then o.solanaTxs
  else mergeTxs (fetchEvmTransactions chain o) (fetchEvmTokenTransfers chain o)

/-- The integer value of a nonempty decimal digit list. -/
def digitsVal (cs : List Char) : Nat :=
  cs.foldl (fun a c => a * 10 + (c.toNat - 48)) 0

/-- JavaScript `parseInt(s)` (radix 10) on the strings this program feeds
it: skip leading whitespace, optional sign, then the longest prefix of
decimal digits; `none` models `NaN` (no digits). -/
def jsParseInt (s : String) : Option Int :=
  let cs := s.toList.dropWhile (fun c => c.isWhitespace)
  let signAndRest : Bool × List Char :=
    match cs with
    | '-' :: rest => (true, rest)
    | '+' :: rest => (false, rest)
    | _ => (false, cs)
  let digs := signAndRest.2.takeWhile (fun c => c.isDigit)
  if digs.isEmpty then none
  else if signAndRest.1 then some (-(digitsVal digs : Int))
  else some ((digitsVal digs : Int))

/-- `parseInt(t.decimals) || 18`: `NaN` is falsy, and so is `0`. -/
def decimalsOrDefault (s : String) : Int :=
  match jsParseInt s with
  | none => 18
  | some n => if n = 0 then 18 else n

/-- The guard `t.balance && t.balance !== '0'` (an absent or empty-string
balance is falsy). -/
def keepTokenEntry (t : RawTokenEntry) : Bool :=
  match t.balance with
  | none => false
  | some b => b != "" && b != "0"

/-- The `tokens.push({...})` body for one kept raw entry. -/
def toTokenBalance (t : RawTokenEntry) : TokenBalance :=
  { token := { address := t.contractAddress, symbol := t.symbol, name := t.name,
               decimals := decimalsOrDefault t.decimals },
    balance := t.balance.getD "" }

/-- The token-accumulation loop of `fetchEvmBalance`. -/
def parseTokenList (raw : List RawTokenEntry) : List TokenBalance :=
  (raw.filter keepTokenEntry).map toTokenBalance

/-- `fetchEvmBalance(wallet)`: `{native: '0', tokens: []}` for an unknown
chain; otherwise native from the balance call (or `'0'` on non-`'1'`
status) and the filtered token list. -/
def fetchEvmBalance (chain : String) (o : FetchOracle) : WalletBalance :=
  if chain ∈ EXPLORER_CHAINS then
    { native := if o.nativeOk then o.nativeResult else "0",
      tokens := if o.tokenListOk then parseTokenList o.tokenListResult else [] }
  else { native := "0", tokens := [] }

/-- `fetchBalance(wallet)`: Solana branch, else EVM. -/
def fetchBalance (chain : String) (o : FetchOracle) : WalletBalance :=
  if chain = "solana" then o.solanaBalance else fetchEvmBalance chain o

/-- A recorded callback invocation. -/
inductive CallbackEvent where
  | onTransaction (tx : Transaction) (wallet : WalletConfig)
  | onBalanceChange (balance : WalletBalance) (wallet : WalletConfig)
deriving DecidableEq, Repr

/-- The new-transaction filter in `update()`:
`transactions.filter(tx => !prev.transactions.find(p => p.hash === tx.hash))`. -/
def newTxFilter (prevTxs txs : List Transaction) : List Transaction :=
  txs.filter (fun tx => !(prevTxs.any (fun p => p.hash == tx.hash)))

/-- One iteration of the `update()` loop for one wallet: fetch, replace
the activity snapshot, then diff against the previous snapshot and emit
the callback invocations (transaction callbacks first, in list order,
then the balance callback). -/
def updateWallet (opts : TrackerOptions) (fetchFor : String → FetchOracle) (now : Int)
    (s : TrackerState) (wallet : WalletConfig) : TrackerState × List CallbackEvent :=
  let key := mkKey wallet.chain wallet.address
  let o := fetchFor key
  let transactions := fetchTransactions wallet.chain o
  let balance := fetchBalance wallet.chain o
  let prev := mapGet s.activities key
  let newActivity : WalletActivity :=
    { wallet := wallet, transactions := transactions, balance := balance,
      lastUpdated := now }
  let s' : TrackerState :=
    { s with activities := mapSet s.activities key newActivity }
  let txEvents : List CallbackEvent :=
    match prev with
    | some p =>
      if opts.hasOnTransaction then
        (newTxFilter p.transactions transactions).map
          (fun tx => CallbackEvent.onTransaction tx wallet)
      else []
    | none => []
  let balEvents : List CallbackEvent :=
    match prev with
    | some p =>
      if opts.hasOnBalanceChange && p.balance.native != balance.native then
        [CallbackEvent.onBalanceChange balance wallet]
      else []
    | none => []
  (s', txEvents ++ balEvents)

/-- `update()`: iterate all registered wallets sequentially, threading
the state and concatenating the emitted callback invocations. -/
def update (opts : TrackerOptions) (fetchFor : String → FetchOracle) (now : Int)
    (s : TrackerState) : TrackerState × List CallbackEvent :=
  (mapValues s.wallets).foldl
    (fun acc w =>
      let r := updateWallet opts fetchFor now acc.1 w
      (r.1, acc.2 ++ r.2))
    (s, [])

/-- `Array.prototype.slice(0, stop)` for a possibly negative `stop`. -/
def jsSliceFromZero {α : Type} (l : List α) (stop : Int) : List α :=
  if stop < 0 then l.take (l.length - stop.natAbs) else l.take stop.toNat

/-- `getTransactionHistory(chain, address, limit)`. -/
def getTransactionHistory (s : TrackerState) (chain address : String)
    (limit : Int) : List Transaction :=
  match getActivity s chain address with
  | none => []
  | some activity => jsSliceFromZero activity.transactions limit

/-- `String.prototype.slice(0, n)` for `n ≥ 0`: the first `n` characters. -/
def stringTake (s : String) (n : Nat) : String :=
  String.mk (s.toList.take n)

/-- Drop the first `n` characters. -/
def stringDrop (s : String) (n : Nat) : String :=
  String.mk (s.toList.drop n)

/-- The character count of a string. -/
def stringLength (s : String) : Nat :=
  s.toList.length

/-- `String.prototype.padStart(n, c)`. -/
def padStart (s : String) (n : Nat) (c : Char) : String :=
  String.mk (List.replicate (n - stringLength s) c) ++ s

/-- `BigInt(s)` on the canonical non-negative decimal digit strings this
program passes to it (explorer balance fields). -/
def bigIntDec (s : String) : Nat :=
  digitsVal s.toList

/-- `formatBalance(balance, decimals)`: integer/fractional split at
`decimals` digits, fractional part zero-padded then truncated to 6
digits. -/
def formatBalance (balance : String) (decimals : Nat) : String :=
  let value : Nat := bigIntDec balance
  let divisor : Nat := 10 ^ decimals
  let intPart := value / divisor
  let fracPart := value % divisor
  let fracStr := stringTake (padStart (Nat.repr fracPart) decimals '0') 6
  Nat.repr intPart ++ "." ++ fracStr

/-- `address.slice(-chars)`: the last `chars` characters, except that
`slice(-0)` is `slice(0)`, the whole string. -/
def jsSliceLast (s : String) (chars : Nat) : String :=
  if chars = 0 then s else stringDrop s (stringLength s - chars)

/-- `shortenAddress(address, chars)`:
`` `${address.slice(0, chars + 2)}...${address.slice(-chars)}` ``. -/
def shortenAddress (address : String) (chars : Nat) : String :=
  stringTake address (chars + 2) ++ "..." ++ jsSliceLast address chars

/-- The hash-equality test on transactions, used to state dedup facts. -/
def hashEq (h : String) (t : Transaction) : Bool :=
  t.hash == h

/-- Whether an event is an `onTransaction` invocation. -/
def isTxCallback : CallbackEvent → Bool
  | .onTransaction _ _ => true
  | .onBalanceChange _ _ => false

/-- Whether an event is an `onBalanceChange` invocation. -/
def isBalCallback : CallbackEvent → Bool
  | .onTransaction _ _ => false
  | .onBalanceChange _ _ => true

/-- Registry keys agree with the `chain:address` of the stored config
(every entry was written by `addWallet`). -/
def KeysWellFormed (m : JSMap WalletConfig) : Prop :=
  ∀ p ∈ m, p.1 = mkKey p.2.chain p.2.address

/-- Every key of the activity store is a key of the registry. -/
def ActivityKeysRegistered (s : TrackerState) : Prop :=
  ∀ p ∈ s.activities, mapHasKey s.wallets p.1 = true

/-- The two-map invariant maintained by the tracker. -/
def TrackerInv (s : TrackerState) : Prop :=
  KeysWellFormed s.wallets ∧ ActivityKeysRegistered s

instance (m : JSMap WalletConfig) : Decidable (KeysWellFormed m) :=
  List.decidableBAll _ m

instance (s : TrackerState) : Decidable (ActivityKeysRegistered s) :=
  List.decidableBAll _ s.activities

instance (s : TrackerState) : Decidable (TrackerInv s) := by
  unfold TrackerInv
  infer_instance

/-- The spec's description of the EVM token-balance list, stated
independently of the code, with the amended decimals rule: keep entries
whose balance string is present, nonempty and not `"0"`; decimals are
the leading-integer parse of the upstream field when that parse exists
and is nonzero, else 18. -/
def specTokenList (raw : List RawTokenEntry) : List TokenBalance :=
  raw.filterMap (fun t =>
    match t.balance with
    | none => none
    | some b =>
      if b = "" ∨ b = "0" then none
      else some { token := { address := t.contractAddress, symbol := t.symbol,
                             name := t.name,
                             decimals := match jsParseInt t.decimals with
                                         | none => 18
                                         | some n => if n = 0 then 18 else n },
                  balance := b })

/-! ### Concrete inputs used by witnesses and counterexamples -/

/-- A minimal confirmed incoming transaction with the given hash and
timestamp. -/
def mkTx (h : String) (ts : Int) : Transaction :=
  { hash := h, fromAddr := "0xsender", toAddr := "0xrecipient", value := "1",
    timestamp := ts, txType := .txIn, status := .confirmed }

/-- A balance snapshot with no tokens. -/
def balOf (n : String) : WalletBalance :=
  { native := n, tokens := [] }

def w1NativeTx : Transaction := mkTx "0xaaa" 5000

def w1TokenTx : Transaction :=
  { hash := "0xaaa", fromAddr := "0xsender", toAddr := "0xrecipient", value := "7",
    timestamp := 5000, txType := .txIn, status := .confirmed,
    token := some { address := "0xtok", symbol := "TKN", name := some "Token", decimals := 6 } }

def cexNativeTx : Transaction := mkTx "0xccc" 1000

def cexTokenTx : Transaction :=
  { hash := "0xccc", fromAddr := "0xsender", toAddr := "0xrecipient", value := "7",
    timestamp := 2000, txType := .txIn, status := .confirmed,
    token := some { address := "0xtok", symbol := "TKN", name := some "Token", decimals := 6 } }

def walletW2 : WalletConfig :=
  { address := "So1Addr", chain := "solana", label := some "hot" }

def txA : Transaction := mkTx "A" 3000

def txB : Transaction := mkTx "B" 2000

def txC : Transaction := mkTx "C" 1000

def prevActW2 : WalletActivity :=
  { wallet := walletW2, transactions := [txA, txB], balance := balOf "1000", lastUpdated := 0 }

def stateW2 : TrackerState :=
  { wallets := [(mkKey "solana" "So1Addr", walletW2)],
    activities := [(mkKey "solana" "So1Addr", prevActW2)] }

def oracleW2 : FetchOracle :=
  { nativeTxs := [], tokenTxs := [], solanaTxs := [txB, txC],
    nativeOk := true, nativeResult := "0", tokenListOk := true, tokenListResult := [],
    solanaBalance := balOf "1000" }

def fetchForW2 : String → FetchOracle := fun _ => oracleW2

def optsW : TrackerOptions :=
  { hasOnTransaction := true, hasOnBalanceChange := true }

def oracleW3 : FetchOracle :=
  { oracleW2 with solanaBalance := balOf "1000.0" }

def fetchForW3 : String → FetchOracle := fun _ => oracleW3

def cfgW4 : WalletConfig :=
  { address := "0xabc", chain := "ethereum", label := some "main" }

def cfgW4other : WalletConfig :=
  { address := "0xdef", chain := "bsc", label := none }

def stateW4 : TrackerState :=
  { wallets := [(mkKey "bsc" "0xdef", cfgW4other)], activities := [] }

def oracleW5 : FetchOracle :=
  { nativeTxs := [mkTx "N" 1], tokenTxs := [mkTx "T" 2], solanaTxs := [mkTx "S" 3],
    nativeOk := true, nativeResult := "42", tokenListOk := true,
    tokenListResult := [{ contractAddress := "0x1", symbol := "A", decimals := "6",
                          balance := some "5" }],
    solanaBalance := balOf "7" }

def rawKeep : RawTokenEntry :=
  { contractAddress := "0x1", symbol := "AAA", name := some "TokenA", decimals := "6",
    balance := some "123" }

def rawZero : RawTokenEntry :=
  { contractAddress := "0x2", symbol := "BBB", name := some "TokenB", decimals := "8",
    balance := some "0" }

def rawMissing : RawTokenEntry :=
  { contractAddress := "0x3", symbol := "CCC", name := none, decimals := "9",
    balance := none }

def cexRawZeroDec : RawTokenEntry :=
  { contractAddress := "0xt", symbol := "T", name := some "Tok", decimals := "0",
    balance := some "5" }

def cfgW7old : WalletConfig :=
  { address := "0xabc", chain := "ethereum", label := some "old label" }

def cfgW7new : WalletConfig :=
  { address := "0xabc", chain := "ethereum", label := some "new label" }

def actW7 : WalletActivity :=
  { wallet := cfgW7old, transactions := [txA], balance := balOf "5", lastUpdated := 1 }

def stateW7 : TrackerState :=
  { wallets := [(mkKey "ethereum" "0xabc", cfgW7old)],
    activities := [(mkKey "ethereum" "0xabc", actW7)] }

def cfgW9 : WalletConfig :=
  { address := "0x999", chain := "polygon", label := none }

def actW10 : WalletActivity :=
  { wallet := cfgW4, transactions := [mkTx "1" 50, mkTx "2" 40, mkTx "3" 30, mkTx "4" 20, mkTx "5" 10],
    balance := balOf "1", lastUpdated := 2 }

def stateW10 : TrackerState :=
  { wallets := [(mkKey "ethereum" "0xabc", cfgW4)],
    activities := [(mkKey "ethereum" "0xabc", actW10)] }

/-! ### Helper lemmas about the `JSMap` model -/

theorem mapHasKey_iff {β : Type} (m : JSMap β) (j : String) :
    mapHasKey m j = true ↔ ∃ p ∈ m, p.1 = j := by
  simp [mapHasKey, List.any_eq_true]

theorem mapGet_mapSet_self {β : Type} (m : JSMap β) (k : String) (v : β) :
    mapGet (mapSet m k v) k = some v := by
  induction m with
  | nil => simp [mapSet, mapGet]
  | cons q rest ih =>
    obtain ⟨k', v'⟩ := q
    by_cases h : k' = k
    · simp [mapSet, h, mapGet]
    · simp [mapSet, h, mapGet, ih]

theorem mapGet_mapDelete_self {β : Type} (m : JSMap β) (k : String) :
    mapGet (mapDelete m k) k = none := by
  induction m with
  | nil => rfl
  | cons q rest ih =>
    obtain ⟨k', v'⟩ := q
    by_cases h : k' = k
    · simpa [mapDelete, List.filter_cons, h] using ih
    · simpa [mapDelete, List.filter_cons, h, mapGet] using ih

theorem mem_mapSet {β : Type} {m : JSMap β} {k : String} {v : β} {p : String × β}
    (hp : p ∈ mapSet m k v) : p = (k, v) ∨ p ∈ m := by
  induction m with
  | nil =>
    simp [mapSet] at hp
    left; exact hp
  | cons q rest ih =>
    obtain ⟨k', v'⟩ := q
    by_cases h : k' = k
    · simp [mapSet, h] at hp
      rcases hp with h1 | h2
      · left; simp [h1]
      · right; simp [h2]
    · simp [mapSet, h] at hp
      rcases hp with h1 | h2
      · right; simp [h1]
      · rcases ih h2 with h3 | h4
        · left; exact h3
        · right; simp [h4]

theorem mem_mapSet_self {β : Type} (m : JSMap β) (k : String) (v : β) :
    (k, v) ∈ mapSet m k v := by
  induction m with
  | nil => simp [mapSet]
  | cons q rest ih =>
    obtain ⟨k', v'⟩ := q
    by_cases h : k' = k
    · simp [mapSet, h]
    · simp [mapSet, h]
      right; exact ih

theorem mem_mapSet_of_ne {β : Type} {m : JSMap β} {p : String × β} (hp : p ∈ m)
    (k : String) (v : β) (hne : p.1 ≠ k) : p ∈ mapSet m k v := by
  induction m with
  | nil => simp at hp
  | cons q rest ih =>
    obtain ⟨k', v'⟩ := q
    rcases List.mem_cons.mp hp with h1 | h2
    · have hk' : k' ≠ k := by
        intro hkk
        exact hne (by simp [h1, hkk])
      simp [mapSet, hk']
      left; exact h1.symm ▸ rfl
    · by_cases h : k' = k
      · simp [mapSet, h]
        right; exact h2
      · simp [mapSet, h]
        right; exact ih h2

theorem mem_mapDelete {β : Type} {m : JSMap β} {k : String} {p : String × β}
    (hp : p ∈ mapDelete m k) : p ∈ m ∧ p.1 ≠ k := by
  have := List.mem_filter.mp hp
  refine ⟨this.1, ?_⟩
  simpa using this.2

theorem mapHasKey_of_mem {β : Type} {m : JSMap β} {p : String × β} (hp : p ∈ m) :
    mapHasKey m p.1 = true :=
  (mapHasKey_iff m p.1).mpr ⟨p, hp, rfl⟩

theorem mapHasKey_mapSet_of {β : Type} {m : JSMap β} {j k : String} {v : β}
    (h : mapHasKey m j = true) : mapHasKey (mapSet m k v) j = true := by
  obtain ⟨p, hp, hpj⟩ := (mapHasKey_iff m j).mp h
  by_cases hk : p.1 = k
  · exact (mapHasKey_iff _ j).mpr ⟨(k, v), mem_mapSet_self m k v, by simp [← hk, hpj]⟩
  · exact (mapHasKey_iff _ j).mpr ⟨p, mem_mapSet_of_ne hp k v hk, hpj⟩

theorem mapHasKey_mapDelete_of {β : Type} {m : JSMap β} {j k : String}
    (h : mapHasKey m j = true) (hne : j ≠ k) : mapHasKey (mapDelete m k) j = true := by
  obtain ⟨p, hp, hpj⟩ := (mapHasKey_iff m j).mp h
  refine (mapHasKey_iff _ j).mpr ⟨p, ?_, hpj⟩
  exact List.mem_filter.mpr ⟨hp, by simp [hpj, hne]⟩

/-! ### Helper lemmas about the merge/sort/dedup pipeline -/

theorem txSortLe_trans : ∀ (a b c : Transaction),
    txSortLe a b = true → txSortLe b c = true → txSortLe a c = true := by
  intro a b c hab hbc
  simp only [txSortLe, decide_eq_true_eq] at *
  omega

theorem txSortLe_total : ∀ (a b : Transaction),
    (txSortLe a b || txSortLe b a) = true := by
  intro a b
  simp only [txSortLe, Bool.or_eq_true, decide_eq_true_eq]
  omega

theorem mergeSort_pair_swap {a b : Transaction} (hab : txSortLe a b = false) :
    [a, b].mergeSort txSortLe = [b, a] := by
  obtain ⟨l₁, l₂, h1, h2, h3⟩ := List.mergeSort_cons txSortLe_trans txSortLe_total a [b]
  rw [List.mergeSort_singleton] at h2
  match l₁, h2 with
  | [], h2 =>
    have hl₂ : l₂ = [b] := by simpa using h2.symm
    rw [hl₂] at h1
    have hs := List.sorted_mergeSort txSortLe_trans txSortLe_total [a, b]
    rw [h1] at hs
    simp only [List.nil_append] at hs
    have : txSortLe a b = true := (List.pairwise_cons.mp hs).1 b (by simp)
    rw [this] at hab
    cases hab
  | x :: l₁', h2 =>
    have hx : x = b ∧ l₁' ++ l₂ = [] := by
      have := h2.symm
      simp only [List.cons_append, List.cons.injEq] at this
      exact ⟨this.1, this.2⟩
    obtain ⟨hl₁', hl₂⟩ := List.append_eq_nil.mp hx.2
    rw [hx.1, hl₁', hl₂] at h1
    simpa using h1

theorem filter_dedupByHash (h : String) :
    ∀ (l : List Transaction) (seen : List String),
      (dedupByHash seen l).filter (hashEq h) =
        if h ∈ seen then [] else (l.filter (hashEq h)).take 1 := by
  intro l
  induction l with
  | nil => intro seen; simp [dedupByHash]
  | cons t ts ih =>
    intro seen
    simp only [dedupByHash]
    by_cases hts : t.hash ∈ seen
    · rw [if_pos hts, ih]
      by_cases hh : h ∈ seen
      · simp [hh]
      · have hne : hashEq h t = false := by
          simp only [hashEq, beq_eq_false_iff_ne, ne_eq]
          intro heq
          exact hh (heq ▸ hts)
        rw [if_neg hh, if_neg hh, List.filter_cons, hne]
        simp
    · rw [if_neg hts, List.filter_cons]
      by_cases hth : t.hash = h
      · have hpt : hashEq h t = true := by simp [hashEq, hth]
        simp only [hpt, if_true]
        rw [ih]
        have hmem : h ∈ t.hash :: seen := by simp [hth]
        rw [if_pos hmem]
        have hh : h ∉ seen := fun hc => hts (hth ▸ hc)
        rw [if_neg hh, List.filter_cons]
        simp [hpt]
      · have hpt : hashEq h t = false := by simp [hashEq, hth]
        simp only [hpt, Bool.false_eq_true, if_false]
        rw [ih]
        have hiff : (h ∈ t.hash :: seen) ↔ (h ∈ seen) := by
          simp only [List.mem_cons, or_iff_right_iff_imp]
          intro heq
          exact absurd heq.symm hth
        by_cases hh : h ∈ seen
        · rw [if_pos (hiff.mpr hh), if_pos hh]
        · rw [if_neg (fun hc => hh (hiff.mp hc)), if_neg hh, List.filter_cons, hpt]
          simp

theorem mergeTxs_filter_eq (native token : List Transaction) (h : String) :
    (mergeTxs native token).filter (hashEq h) =
      ((sortByTimestampDesc (native ++ token)).filter (hashEq h)).take 1 := by
  unfold mergeTxs
  rw [filter_dedupByHash]
  simp

theorem mergeTxs_count_one {native token : List Transaction} {h : String}
    (hmem : ∃ t ∈ native ++ token, t.hash = h) :
    ((mergeTxs native token).filter (hashEq h)).length = 1 := by
  rw [mergeTxs_filter_eq]
  obtain ⟨t, ht, hth⟩ := hmem
  have hts : t ∈ sortByTimestampDesc (native ++ token) := by
    unfold sortByTimestampDesc
    exact List.mem_mergeSort.mpr ht
  have hf : t ∈ (sortByTimestampDesc (native ++ token)).filter (hashEq h) :=
    List.mem_filter.mpr ⟨hts, by simp [hashEq, hth]⟩
  obtain ⟨b, L, hbl⟩ := List.exists_cons_of_ne_nil (List.ne_nil_of_mem hf)
  rw [hbl]
  simp

theorem mergeTxs_keeps_unique_first {native token : List Transaction} {t1 t2 : Transaction}
    (hn : native.filter (hashEq t1.hash) = [t1])
    (ht : token.filter (hashEq t1.hash) = [t2])
    (hts : txSortLe t1 t2 = true) :
    (mergeTxs native token).filter (hashEq t1.hash) = [t1] := by
  have h1 : List.Sublist [t1] native := hn ▸ List.filter_sublist native
  have h2 : List.Sublist [t2] token := ht ▸ List.filter_sublist token
  have hsub : List.Sublist [t1, t2] (native ++ token) := by
    have := List.Sublist.append h1 h2
    simpa using this
  have hsorted : List.Sublist [t1, t2] (sortByTimestampDesc (native ++ token)) := by
    unfold sortByTimestampDesc
    exact List.pair_sublist_mergeSort txSortLe_trans txSortLe_total hts hsub
  have hp1 : hashEq t1.hash t1 = true := by simp [hashEq]
  have hp2 : hashEq t1.hash t2 = true := by
    have : t2 ∈ token.filter (hashEq t1.hash) := by simp [ht]
    exact (List.mem_filter.mp this).2
  have hsubf : List.Sublist [t1, t2]
      ((sortByTimestampDesc (native ++ token)).filter (hashEq t1.hash)) := by
    have := List.Sublist.filter (hashEq t1.hash) hsorted
    simpa [List.filter_cons, hp1, hp2] using this
  have hperm : ((sortByTimestampDesc (native ++ token)).filter (hashEq t1.hash)).Perm
      ((native ++ token).filter (hashEq t1.hash)) := by
    unfold sortByTimestampDesc
    exact List.Perm.filter _ (List.mergeSort_perm _ _)
  have hlen : ((sortByTimestampDesc (native ++ token)).filter (hashEq t1.hash)).length = 2 := by
    rw [hperm.length_eq, List.filter_append, hn, ht]
    rfl
  have heq : (sortByTimestampDesc (native ++ token)).filter (hashEq t1.hash) = [t1, t2] :=
    (hsubf.eq_of_length (by rw [hlen]; rfl)).symm
  rw [mergeTxs_filter_eq, heq]
  rfl

/-- **C1** (amended): `fetchTransactions` for an EVM wallet concatenates the
native-transaction and token-transfer lists, stable-sorts descending by
timestamp, and deduplicates by hash keeping the first occurrence *in sorted
order*; so the merged result has exactly one entry per present hash, and
when each list holds exactly one entry for a shared hash the native-tx
entry is the one kept provided its timestamp is at least the token entry's
(in particular when both carry the same timestamp, the stable-sort case);
a token entry with strictly larger timestamp is kept instead. -/
theorem mergeTxs_dedup_amended :
    (∀ (native token : List Transaction) (h : String),
      (∃ t ∈ native ++ token, t.hash = h) →
      ((mergeTxs native token).filter (hashEq h)).length = 1)
    ∧ (∀ (native token : List Transaction) (t1 t2 : Transaction),
      native.filter (hashEq t1.hash) = [t1] →
      token.filter (hashEq t1.hash) = [t2] →
      t2.timestamp ≤ t1.timestamp →
      (mergeTxs native token).filter (hashEq t1.hash) = [t1]) := by
  constructor
  · intro native token h hmem
    exact mergeTxs_count_one hmem
  · intro native token t1 t2 hn ht hts
    exact mergeTxs_keeps_unique_first hn ht (by simp [txSortLe, hts])

/-- Witness for C1 at concrete inputs: a native and a token transaction
sharing hash `"0xaaa"` and a timestamp; the merged list keeps exactly the
native entry. -/
theorem mergeTxs_dedup_amended_witness :
    ((∃ t ∈ [w1NativeTx] ++ [w1TokenTx], t.hash = "0xaaa") ∧
      ((mergeTxs [w1NativeTx] [w1TokenTx]).filter (hashEq "0xaaa")).length = 1)
    ∧ ([w1NativeTx].filter (hashEq w1NativeTx.hash) = [w1NativeTx]
       ∧ [w1TokenTx].filter (hashEq w1NativeTx.hash) = [w1TokenTx]
       ∧ w1TokenTx.timestamp ≤ w1NativeTx.timestamp
       ∧ (mergeTxs [w1NativeTx] [w1TokenTx]).filter (hashEq w1NativeTx.hash) = [w1NativeTx]) := by
  refine ⟨⟨⟨w1NativeTx, by simp, by decide⟩, ?_⟩, by decide, by decide, by decide, ?_⟩
  · exact mergeTxs_dedup_amended.1 [w1NativeTx] [w1TokenTx] "0xaaa"
      ⟨w1NativeTx, by simp, by decide⟩
  · exact mergeTxs_dedup_amended.2 [w1NativeTx] [w1TokenTx] w1NativeTx w1TokenTx
      (by decide) (by decide) (by decide)

/-- Counterexample to C1 as stated: the two lists share hash `"0xccc"` but
the token entry carries the larger timestamp, so after sorting it comes
first and deduplication keeps it — the merged result is exactly the token
entry, not the native one. -/
theorem mergeTxs_keeps_token_entry_cex :
    mergeTxs [cexNativeTx] [cexTokenTx] = [cexTokenTx]
    ∧ cexTokenTx ≠ cexNativeTx
    ∧ cexNativeTx.hash = cexTokenTx.hash := by
  refine ⟨?_, by decide, by decide⟩
  have hs : sortByTimestampDesc ([cexNativeTx] ++ [cexTokenTx]) = [cexTokenTx, cexNativeTx] := by
    unfold sortByTimestampDesc
    exact mergeSort_pair_swap (by decide)
  unfold mergeTxs
  rw [hs]
  decide

/-! ### Helper lemmas about the update diff -/

theorem newTxFilter_eq_spec (prevTxs txs : List Transaction) :
    newTxFilter prevTxs txs =
      txs.filter (fun tx => !((prevTxs.map Transaction.hash).contains tx.hash)) := by
  unfold newTxFilter
  congr 1
  funext tx
  congr 1
  show prevTxs.any (fun p => p.hash == tx.hash) =
    List.elem tx.hash (prevTxs.map Transaction.hash)
  refine Bool.eq_iff_iff.mpr ?_
  simp only [List.any_eq_true, beq_iff_eq, List.elem_iff, List.mem_map]

/-- **C2**: for a wallet that already has an activity snapshot, with the
transaction callback configured, `update()`'s per-wallet body fires the
transaction callback exactly for the transactions of the new list whose
hash is absent from the previous list's hashes, in new-list order, and
for nothing else. -/
theorem update_transaction_callbacks
    (opts : TrackerOptions) (fetchFor : String → FetchOracle) (now : Int)
    (s : TrackerState) (wallet : WalletConfig) (p : WalletActivity)
    (hprev : mapGet s.activities (mkKey wallet.chain wallet.address) = some p)
    (hopt : opts.hasOnTransaction = true) :
    ((updateWallet opts fetchFor now s wallet).2).filter isTxCallback =
      ((fetchTransactions wallet.chain (fetchFor (mkKey wallet.chain wallet.address))).filter
        (fun tx => !((p.transactions.map Transaction.hash).contains tx.hash))).map
        (fun tx => CallbackEvent.onTransaction tx wallet) := by
  rw [← newTxFilter_eq_spec]
  simp only [updateWallet, hprev, hopt, if_true]
  rw [List.filter_append]
  have hcomp : (isTxCallback ∘ (fun tx => CallbackEvent.onTransaction tx wallet)) =
      fun _ => true := by
    funext tx
    rfl
  have htx : ((newTxFilter p.transactions
      (fetchTransactions wallet.chain (fetchFor (mkKey wallet.chain wallet.address)))).map
        (fun tx => CallbackEvent.onTransaction tx wallet)).filter isTxCallback =
      (newTxFilter p.transactions
        (fetchTransactions wallet.chain (fetchFor (mkKey wallet.chain wallet.address)))).map
        (fun tx => CallbackEvent.onTransaction tx wallet) := by
    rw [List.filter_map, hcomp, List.filter_true]
  rw [htx]
  split
  · simp [isTxCallback]
  · simp

/-- Witness for C2: previous hashes `{A, B}`, new list hashes `{B, C}` —
exactly one transaction callback fires, for `C`. -/
theorem update_transaction_callbacks_witness :
    mapGet stateW2.activities (mkKey walletW2.chain walletW2.address) = some prevActW2
    ∧ optsW.hasOnTransaction = true
    ∧ (prevActW2.transactions.map Transaction.hash = ["A", "B"]
       ∧ (fetchTransactions walletW2.chain
            (fetchForW2 (mkKey walletW2.chain walletW2.address))).map Transaction.hash = ["B", "C"])
    ∧ ((updateWallet optsW fetchForW2 99 stateW2 walletW2).2).filter isTxCallback =
        [CallbackEvent.onTransaction txC walletW2] := by
  refine ⟨by decide, rfl, ⟨by decide, by decide⟩, ?_⟩
  rw [update_transaction_callbacks optsW fetchForW2 99 stateW2 walletW2 prevActW2
    (by decide) rfl]
  decide

/-- **C3**: for a wallet with a previous snapshot and the balance callback
configured, `update()`'s per-wallet body fires the balance callback
exactly once iff the new native balance string differs from the previous
one under exact string comparison, and not otherwise. -/
theorem update_balance_callback
    (opts : TrackerOptions) (fetchFor : String → FetchOracle) (now : Int)
    (s : TrackerState) (wallet : WalletConfig) (p : WalletActivity)
    (hprev : mapGet s.activities (mkKey wallet.chain wallet.address) = some p)
    (hopt : opts.hasOnBalanceChange = true) :
    ((updateWallet opts fetchFor now s wallet).2).filter isBalCallback =
      (if p.balance.native =
          (fetchBalance wallet.chain (fetchFor (mkKey wallet.chain wallet.address))).native
       then []
       else [CallbackEvent.onBalanceChange
              (fetchBalance wallet.chain (fetchFor (mkKey wallet.chain wallet.address))) wallet])
    ∧ (((updateWallet opts fetchFor now s wallet).2).filter isBalCallback).length =
      (if p.balance.native =
          (fetchBalance wallet.chain (fetchFor (mkKey wallet.chain wallet.address))).native
       then 0 else 1) := by
  have hmain : ((updateWallet opts fetchFor now s wallet).2).filter isBalCallback =
      (if p.balance.native =
          (fetchBalance wallet.chain (fetchFor (mkKey wallet.chain wallet.address))).native
       then []
       else [CallbackEvent.onBalanceChange
              (fetchBalance wallet.chain (fetchFor (mkKey wallet.chain wallet.address))) wallet]) := by
    simp only [updateWallet, hprev, hopt, if_true]
    rw [List.filter_append]
    have hcomp : (isBalCallback ∘ (fun tx => CallbackEvent.onTransaction tx wallet)) =
        fun _ => false := by
      funext tx
      rfl
    have htx : ∀ l : List Transaction,
        ((if opts.hasOnTransaction = true then
            (newTxFilter p.transactions l).map (fun tx => CallbackEvent.onTransaction tx wallet)
          else []) : List CallbackEvent).filter isBalCallback = [] := by
      intro l
      split
      · rw [List.filter_map, hcomp, List.filter_false, List.map_nil]
      · rfl
    rw [htx, List.nil_append]
    by_cases hb : p.balance.native =
        (fetchBalance wallet.chain (fetchFor (mkKey wallet.chain wallet.address))).native
    · simp [hb]
    · simp [hb, isBalCallback]
  refine ⟨hmain, ?_⟩
  rw [hmain]
  by_cases hb : p.balance.native =
      (fetchBalance wallet.chain (fetchFor (mkKey wallet.chain wallet.address))).native
  · simp [hb]
  · simp [hb]

/-- Witness for C3: previous native balance `"1000"`, new native balance
`"1000.0"` — different as strings, so the balance callback fires once. -/
theorem update_balance_callback_witness :
    mapGet stateW2.activities (mkKey walletW2.chain walletW2.address) = some prevActW2
    ∧ optsW.hasOnBalanceChange = true
    ∧ prevActW2.balance.native = "1000"
    ∧ (fetchBalance walletW2.chain (fetchForW3 (mkKey walletW2.chain walletW2.address))).native
        = "1000.0"
    ∧ ((updateWallet optsW fetchForW3 99 stateW2 walletW2).2).filter isBalCallback =
        [CallbackEvent.onBalanceChange (balOf "1000.0") walletW2]
    ∧ (((updateWallet optsW fetchForW3 99 stateW2 walletW2).2).filter isBalCallback).length = 1 := by
  have h := update_balance_callback optsW fetchForW3 99 stateW2 walletW2 prevActW2
    (by decide) rfl
  refine ⟨by decide, rfl, by decide, by decide, ?_, ?_⟩
  · rw [h.1]
    decide
  · rw [h.2]
    decide

/-- **C4**: adding then removing the same `(chain, address)` leaves
`getActivity` at "not found" (`none`), excludes that wallet from
`getWallets()`, and deletes the key from both the registry map and the
activity map. -/
theorem add_remove_wallet_clears (s : TrackerState) (cfg : WalletConfig)
    (hwf : KeysWellFormed s.wallets) :
    getActivity (removeWallet (addWallet s cfg) cfg.chain cfg.address) cfg.chain cfg.address = none
    ∧ mapGet (removeWallet (addWallet s cfg) cfg.chain cfg.address).wallets
        (mkKey cfg.chain cfg.address) = none
    ∧ mapGet (removeWallet (addWallet s cfg) cfg.chain cfg.address).activities
        (mkKey cfg.chain cfg.address) = none
    ∧ ∀ w ∈ getWallets (removeWallet (addWallet s cfg) cfg.chain cfg.address),
        ¬(w.chain = cfg.chain ∧ w.address = cfg.address) := by
  refine ⟨mapGet_mapDelete_self _ _, mapGet_mapDelete_self _ _, mapGet_mapDelete_self _ _, ?_⟩
  intro w hw hcontra
  obtain ⟨hc, ha⟩ := hcontra
  obtain ⟨q, hq, hqw⟩ := List.mem_map.mp hw
  obtain ⟨hq', hqk⟩ := mem_mapDelete hq
  rcases mem_mapSet hq' with heq | hmem
  · exact hqk (by rw [heq])
  · have hwfq := hwf q hmem
    exact hqk (by rw [hwfq, hqw, hc, ha])

/-- Witness for C4 at a concrete state holding one other wallet. -/
theorem add_remove_wallet_clears_witness :
    KeysWellFormed stateW4.wallets
    ∧ getActivity (removeWallet (addWallet stateW4 cfgW4) cfgW4.chain cfgW4.address)
        cfgW4.chain cfgW4.address = none
    ∧ ∀ w ∈ getWallets (removeWallet (addWallet stateW4 cfgW4) cfgW4.chain cfgW4.address),
        ¬(w.chain = cfgW4.chain ∧ w.address = cfgW4.address) := by
  have h := add_remove_wallet_clears stateW4 cfgW4 (by decide)
  exact ⟨by decide, h.1, h.2.2.2⟩

/-- **C5**: for a chain that is neither `'solana'` nor in the explorer
table, `fetchTransactions` returns the empty list and `fetchBalance`
returns `{native: '0', tokens: []}`, whatever the network would have
returned; both are total functions, so neither throws. -/
theorem unsupported_chain_graceful (chain : String) (o : FetchOracle)
    (h1 : chain ≠ "solana") (h2 : chain ∉ EXPLORER_CHAINS) :
    fetchTransactions chain o = []
    ∧ fetchBalance chain o = { native := "0", tokens := [] } := by
  constructor
  · unfold fetchTransactions
    rw [if_neg h1]
    unfold mergeTxs fetchEvmTransactions fetchEvmTokenTransfers
    rw [if_neg h2, if_neg h2]
    show dedupByHash [] (sortByTimestampDesc ([] ++ [])) = []
    simp [sortByTimestampDesc, dedupByHash]
  · unfold fetchBalance
    rw [if_neg h1]
    unfold fetchEvmBalance
    rw [if_neg h2]

/-- Witness for C5: chain `"unknown"` with an oracle full of data that
would be returned for a supported chain. -/
theorem unsupported_chain_graceful_witness :
    ("unknown" : String) ≠ "solana"
    ∧ ("unknown" : String) ∉ EXPLORER_CHAINS
    ∧ fetchTransactions "unknown" oracleW5 = []
    ∧ fetchBalance "unknown" oracleW5 = { native := "0", tokens := [] } := by
  have h := unsupported_chain_graceful "unknown" oracleW5 (by decide) (by decide)
  exact ⟨by decide, by decide, h.1, h.2⟩

/-- **C6** (amended): the EVM token-balance loop keeps exactly the entries
whose balance string is present, nonempty and not `'0'`; a token's
decimals field is the leading-integer `parseInt` of the upstream value
when that parse exists and is nonzero, and defaults to 18 when the parse
is `NaN` **or yields `0`** (because `parseInt(t.decimals) || 18` treats
`0` as falsy). -/
theorem token_filtering_amended :
    (∀ raw : List RawTokenEntry, parseTokenList raw = specTokenList raw)
    ∧ (∀ (s : String) (n : Int), jsParseInt s = some n → n ≠ 0 → decimalsOrDefault s = n)
    ∧ (∀ s : String, jsParseInt s = none → decimalsOrDefault s = 18) := by
  refine ⟨?_, ?_, ?_⟩
  · intro raw
    induction raw with
    | nil => rfl
    | cons t ts ih =>
      simp only [parseTokenList, specTokenList, List.filter_cons, List.filterMap_cons] at ih ⊢
      cases hb : t.balance with
      | none =>
        have hk : keepTokenEntry t = false := by simp [keepTokenEntry, hb]
        simp [hk, hb, ih]
      | some b =>
        by_cases hz : b = "" ∨ b = "0"
        · have hk : keepTokenEntry t = false := by
            rcases hz with h | h <;> simp [keepTokenEntry, hb, h]
          simp [hk, hb, hz, ih]
        · push_neg at hz
          have hk : keepTokenEntry t = true := by
            simp [keepTokenEntry, hb, hz.1, hz.2]
          simp [hk, hb, hz.1, hz.2, ih, toTokenBalance, decimalsOrDefault]
  · intro s n hp hn
    simp [decimalsOrDefault, hp, hn]
  · intro s hp
    simp [decimalsOrDefault, hp]

/-- Witness for C6: a kept entry (balance `"123"`, decimals `"6"`
preserved as 6), a zero-balance entry and a missing-balance entry (both
dropped); plus the two decimals cases with their hypotheses. -/
theorem token_filtering_amended_witness :
    parseTokenList [rawKeep, rawZero, rawMissing] = specTokenList [rawKeep, rawZero, rawMissing]
    ∧ (jsParseInt "6" = some 6 ∧ (6 : Int) ≠ 0 ∧ decimalsOrDefault "6" = 6)
    ∧ (jsParseInt "xyz" = none ∧ decimalsOrDefault "xyz" = 18)
    ∧ parseTokenList [rawKeep, rawZero, rawMissing] =
        [{ token := { address := "0x1", symbol := "AAA", name := some "TokenA", decimals := 6 },
           balance := "123" }] := by
  refine ⟨token_filtering_amended.1 [rawKeep, rawZero, rawMissing],
    ⟨by decide, by decide, token_filtering_amended.2.1 "6" 6 (by decide) (by decide)⟩,
    ⟨by decide, token_filtering_amended.2.2 "xyz" (by decide)⟩, by decide⟩

/-- Counterexample to C6 as stated: `"0"` is parsable as the integer `0`,
yet the produced decimals field is 18, not the parsed value — a parsable
decimals value is *not* always preserved, because `parseInt(...) || 18`
also replaces a parsed `0`. -/
theorem token_decimals_zero_cex :
    jsParseInt "0" = some 0
    ∧ parseTokenList [cexRawZeroDec] =
        [{ token := { address := "0xt", symbol := "T", name := some "Tok", decimals := 18 },
           balance := "5" }] := by
  constructor
  · decide
  · decide

/-- **C7**: `addWallet` on a key already present overwrites the registry
entry (label included) and leaves the activity map entirely unchanged —
stale activity persists until an explicit `removeWallet` or the next
`update`. -/
theorem addWallet_overwrite_frame (s : TrackerState) (cfg old : WalletConfig)
    (h : mapGet s.wallets (mkKey cfg.chain cfg.address) = some old) :
    mapGet (addWallet s cfg).wallets (mkKey cfg.chain cfg.address) = some cfg
    ∧ (addWallet s cfg).activities = s.activities :=
  ⟨mapGet_mapSet_self _ _ _, rfl⟩

/-- Witness for C7: re-adding `0xabc` on ethereum with a new label
overwrites the registry entry while the old activity snapshot stays
readable through `getActivity`. -/
theorem addWallet_overwrite_frame_witness :
    mapGet stateW7.wallets (mkKey cfgW7new.chain cfgW7new.address) = some cfgW7old
    ∧ mapGet (addWallet stateW7 cfgW7new).wallets (mkKey cfgW7new.chain cfgW7new.address)
        = some cfgW7new
    ∧ (addWallet stateW7 cfgW7new).activities = stateW7.activities
    ∧ getActivity (addWallet stateW7 cfgW7new) cfgW7new.chain cfgW7new.address = some actW7 := by
  have h := addWallet_overwrite_frame stateW7 cfgW7new cfgW7old (by decide)
  exact ⟨by decide, h.1, h.2, by decide⟩

/-- **C8**: the two display helpers at the spec's concrete inputs:
`formatBalance("1500000000000000000", 18) = "1.500000"` and
`shortenAddress("0x1234567890abcdef", 4) = "0x1234...cdef"`. -/
theorem format_utils_spec :
    formatBalance "1500000000000000000" 18 = "1.500000"
    ∧ shortenAddress "0x1234567890abcdef" 4 = "0x1234...cdef" := by
  constructor
  · decide
  · decide

/-- **C10**: `getTransactionHistory` returns `[]` when no activity is
stored (rather than failing), and otherwise the first
`min(limit, length)` stored transactions in stored order. -/
theorem transaction_history_spec (s : TrackerState) (chain address : String) (limit : Int) :
    (getActivity s chain address = none → getTransactionHistory s chain address limit = [])
    ∧ (∀ a : WalletActivity, getActivity s chain address = some a → 0 ≤ limit →
        getTransactionHistory s chain address limit = a.transactions.take limit.toNat
        ∧ (getTransactionHistory s chain address limit).length
            = min limit.toNat a.transactions.length) := by
  constructor
  · intro h
    simp [getTransactionHistory, h]
  · intro a ha hlim
    have h1 : getTransactionHistory s chain address limit = a.transactions.take limit.toNat := by
      simp [getTransactionHistory, ha, jsSliceFromZero, not_lt.mpr hlim]
    refine ⟨h1, ?_⟩
    rw [h1, List.length_take]

/-- Witness for C10: a missing activity yields `[]`; a stored activity
with 5 transactions and limit 2 yields exactly the first 2 in stored
order. -/
theorem transaction_history_spec_witness :
    (getActivity initState "ethereum" "0xnone" = none
     ∧ getTransactionHistory initState "ethereum" "0xnone" 20 = [])
    ∧ (getActivity stateW10 "ethereum" "0xabc" = some actW10
       ∧ (0 : Int) ≤ 2
       ∧ getTransactionHistory stateW10 "ethereum" "0xabc" 2 = [mkTx "1" 50, mkTx "2" 40]
       ∧ (getTransactionHistory stateW10 "ethereum" "0xabc" 2).length = 2) := by
  refine ⟨⟨by decide, ?_⟩, by decide, by decide, ?_, ?_⟩
  · exact (transaction_history_spec initState "ethereum" "0xnone" 20).1 (by decide)
  · have h := ((transaction_history_spec stateW10 "ethereum" "0xabc" 2).2 actW10
      (by decide) (by decide)).1
    rw [h]
    decide
  · have h := ((transaction_history_spec stateW10 "ethereum" "0xabc" 2).2 actW10
      (by decide) (by decide)).2
    rw [h]
    decide

/-! ### Invariant preservation -/

theorem updateWallet_wallets_eq (opts : TrackerOptions) (fetchFor : String → FetchOracle)
    (now : Int) (s : TrackerState) (w : WalletConfig) :
    (updateWallet opts fetchFor now s w).1.wallets = s.wallets := rfl

theorem updateWallet_activities_eq (opts : TrackerOptions) (fetchFor : String → FetchOracle)
    (now : Int) (s : TrackerState) (w : WalletConfig) :
    (updateWallet opts fetchFor now s w).1.activities =
      mapSet s.activities (mkKey w.chain w.address)
        ({ wallet := w,
           transactions := fetchTransactions w.chain (fetchFor (mkKey w.chain w.address)),
           balance := fetchBalance w.chain (fetchFor (mkKey w.chain w.address)),
           lastUpdated := now }) := rfl

theorem update_fold_registered (opts : TrackerOptions) (fetchFor : String → FetchOracle)
    (now : Int) (w0 : JSMap WalletConfig) :
    ∀ (ws : List WalletConfig) (acc : TrackerState × List CallbackEvent),
      (∀ w ∈ ws, mapHasKey w0 (mkKey w.chain w.address) = true) →
      acc.1.wallets = w0 →
      (∀ p ∈ acc.1.activities, mapHasKey w0 p.1 = true) →
      (ws.foldl (fun acc w =>
          let r := updateWallet opts fetchFor now acc.1 w
          (r.1, acc.2 ++ r.2)) acc).1.wallets = w0
      ∧ ∀ p ∈ (ws.foldl (fun acc w =>
          let r := updateWallet opts fetchFor now acc.1 w
          (r.1, acc.2 ++ r.2)) acc).1.activities, mapHasKey w0 p.1 = true := by
  intro ws
  induction ws with
  | nil =>
    intro acc hws hw ha
    exact ⟨hw, ha⟩
  | cons w ws ih =>
    intro acc hws hw ha
    simp only [List.foldl_cons]
    apply ih
    · intro w' hw'
      exact hws w' (List.mem_cons_of_mem _ hw')
    · show (updateWallet opts fetchFor now acc.1 w).1.wallets = w0
      rw [updateWallet_wallets_eq, hw]
    · intro p hp
      have hp' : p ∈ mapSet acc.1.activities (mkKey w.chain w.address)
          ({ wallet := w,
             transactions := fetchTransactions w.chain (fetchFor (mkKey w.chain w.address)),
             balance := fetchBalance w.chain (fetchFor (mkKey w.chain w.address)),
             lastUpdated := now }) := hp
      rcases mem_mapSet hp' with heq | hmem
      · have hkey : p.1 = mkKey w.chain w.address := by rw [heq]
        rw [hkey]
        exact hws w (List.mem_cons_self w ws)
      · exact ha p hmem

/-- **C9**: every key of the activity map is a key of the registry, and
registry keys agree with their config's `chain:address`; this invariant
holds initially and is preserved by `addWallet`, `removeWallet`, and a
full sequential `update()` cycle. -/
theorem activity_keys_invariant :
    TrackerInv initState
    ∧ (∀ (s : TrackerState) (cfg : WalletConfig), TrackerInv s → TrackerInv (addWallet s cfg))
    ∧ (∀ (s : TrackerState) (chain address : String),
        TrackerInv s → TrackerInv (removeWallet s chain address))
    ∧ (∀ (opts : TrackerOptions) (fetchFor : String → FetchOracle) (now : Int)
        (s : TrackerState), TrackerInv s → TrackerInv (update opts fetchFor now s).1) := by
  refine ⟨?_, ?_, ?_, ?_⟩
  · exact ⟨fun p hp => by simp [initState] at hp, fun p hp => by simp [initState] at hp⟩
  · rintro s cfg ⟨hwf, hreg⟩
    constructor
    · intro p hp
      rcases mem_mapSet hp with heq | hmem
      · rw [heq]
      · exact hwf p hmem
    · intro p hp
      have hp' : p ∈ s.activities := hp
      exact mapHasKey_mapSet_of (hreg p hp')
  · rintro s chain address ⟨hwf, hreg⟩
    constructor
    · intro p hp
      exact hwf p (mem_mapDelete hp).1
    · intro p hp
      obtain ⟨hmem, hne⟩ := mem_mapDelete hp
      exact mapHasKey_mapDelete_of (hreg p hmem) hne
  · rintro opts fetchFor now s ⟨hwf, hreg⟩
    have hws : ∀ w ∈ mapValues s.wallets,
        mapHasKey s.wallets (mkKey w.chain w.address) = true := by
      intro w hw
      obtain ⟨q, hq, hqw⟩ := List.mem_map.mp hw
      have h1 := hwf q hq
      have h2 := mapHasKey_of_mem hq
      rw [h1, hqw] at h2
      exact h2
    have h := update_fold_registered opts fetchFor now s.wallets (mapValues s.wallets)
      (s, []) hws rfl hreg
    have hu : (update opts fetchFor now s).1.wallets = s.wallets := h.1
    have hact : ∀ p ∈ (update opts fetchFor now s).1.activities,
        mapHasKey s.wallets p.1 = true := h.2
    constructor
    · intro p hp
      rw [hu] at hp
      exact hwf p hp
    · intro p hp
      rw [hu]
      exact hact p hp

/-- Witness for C9 at a concrete nonempty state: the invariant holds and
each of the three operations preserves it. -/
theorem activity_keys_invariant_witness :
    TrackerInv stateW7
    ∧ TrackerInv (addWallet stateW7 cfgW9)
    ∧ TrackerInv (removeWallet stateW7 "ethereum" "0xabc")
    ∧ TrackerInv (update optsW fetchForW2 123 stateW7).1 := by
  refine ⟨by decide, ?_, ?_, ?_⟩
  · exact activity_keys_invariant.2.1 stateW7 cfgW9 (by decide)
  · exact activity_keys_invariant.2.2.1 stateW7 "ethereum" "0xabc" (by decide)
  · exact activity_keys_invariant.2.2.2 optsW fetchForW2 123 stateW7 (by decide)

end WalletTracker
